import Mathlib

/-!
# Nitro keeper message server: record and fraud-challenge handlers

A shallow embedding of `x/nitro/keeper/msg_server.go`:

* `RecordTransactionData` (lines 26-53): whitelisted publishers post the hex
  encoded transactions and state root of a slot,
* `SubmitFraudChallenge` (lines 55-111): a challenger disputes the account
  state committed for a slot range.

Go strings and byte slices are sequences of bytes (`List Nat`); `uint64`
slots are natural numbers below `2 ^ 64` and `slot++` is taken modulo
`2 ^ 64`.  The keeper store is passed explicitly; the Merkle verifier, the
replay engine and the account hasher are parameters of the handler.
-/

namespace Nitro

/-- Byte slices of the Go program. -/
abbrev Bytes := List Nat

/-- Go strings are immutable byte sequences. -/
abbrev GoString := List Nat

/-- Width of a slot number: `uint64`. -/
def slotModulus : Nat := 2 ^ 64

/-- Largest `uint64`. -/
def maxSlot : Nat := 2 ^ 64 - 1

/-- Errors that the two handlers can return. `hexInvalidByte` and `hexLength`
are the two errors of Go's `encoding/hex`; `external` stands for any error
value produced by a collaborator that is none of the named ones. -/
inductive Err where
  | notWhitelisted
  | slotAlreadyRecorded (slot : Nat) (existingSender : GoString)
  | hexInvalidByte (b : Nat)
  | hexLength
  | ErrInvalidFraudStatePubkey
  | ErrInvalidMerkleProof
  | slotNotFound (slot : Nat)
  | external (code : Nat)
  deriving DecidableEq, Repr

deriving instance DecidableEq for Except

/-! ## `encoding/hex` -/

/-- Value of one hexadecimal digit, `none` where Go's `reverseHexTable`
holds `0xff`. -/
def fromHexChar (c : Nat) : Option Nat :=
  if 48 ≤ c ∧ c ≤ 57 then some (c - 48)
  else if 97 ≤ c ∧ c ≤ 102 then some (c - 97 + 10)
  else if 65 ≤ c ∧ c ≤ 70 then some (c - 65 + 10)
  else none

/-- Go's `hex.DecodeString`: bytes are consumed in pairs, the first invalid
byte is reported, and a trailing single valid digit is a length error. -/
def hexDecodeString : GoString → Except Err Bytes
  | [] => .ok []
  | [p] =>
    match fromHexChar p with
    | none => .error (.hexInvalidByte p)
    | some _ => .error .hexLength
  | p :: q :: rest =>
    match fromHexChar p, fromHexChar q with
    | none, _ => .error (.hexInvalidByte p)
    | some _, none => .error (.hexInvalidByte q)
    | some a, some b =>
      match hexDecodeString rest with
      | .error e => .error e
      | .ok bz => .ok ((a * 16 + b) :: bz)

/-! ## Keeper store -/

/-- Modelled from the spec: the keeper store (`keeper.go` is missing). The
slot ledger maps a slot to its transaction batch, its state root and its
recording sender; the whitelist is externally managed state that the
handlers only read. -/
structure Keeper where
  whitelist : List GoString
  txData : Nat → Option (List Bytes)
  stateRoot : Nat → Option Bytes
  sender : Nat → Option GoString

/-- Modelled from the spec: the keeper method `IsTxSenderWhitelisted` is
missing; it is a pure lookup against the whitelist. -/
def IsTxSenderWhitelisted (k : Keeper) (sender : GoString) : Bool :=
  decide (sender ∈ k.whitelist)

/-- Modelled from the spec: the keeper method `GetSender` is missing; it
returns the sender and whether one is recorded (the zero string if not). -/
def GetSender (k : Keeper) (slot : Nat) : GoString × Bool :=
  match k.sender slot with
  | some s => (s, true)
  | none => ([], false)

/-- Modelled from the spec: the keeper method `GetStateRoot` is missing; it
fails with the slot-not-found error if no root is recorded. -/
def GetStateRoot (k : Keeper) (slot : Nat) : Except Err Bytes :=
  match k.stateRoot slot with
  | some r => .ok r
  | none => .error (.slotNotFound slot)

/-- Modelled from the spec: the keeper method `GetTransactionData` is
missing; an unrecorded slot gives the empty sequence. The second component
is the error value that the caller discards. -/
def GetTransactionData (k : Keeper) (slot : Nat) : List Bytes × Option Err :=
  match k.txData slot with
  | some txs => (txs, none)
  | none => ([], none)

/-- Modelled from the spec: the keeper method `SetTransactionData` is
missing; it stores the batch under the slot. -/
def SetTransactionData (k : Keeper) (slot : Nat) (txs : List Bytes) : Keeper :=
  { k with txData := fun s => if s = slot then some txs else k.txData s }

/-- Modelled from the spec: the keeper method `SetStateRoot` is missing; it
stores the root under the slot. -/
def SetStateRoot (k : Keeper) (slot : Nat) (root : Bytes) : Keeper :=
  { k with stateRoot := fun s => if s = slot then some root else k.stateRoot s }

/-- Modelled from the spec: the keeper method `SetSender` is missing; it
stores the sender under the slot. -/
def SetSender (k : Keeper) (slot : Nat) (sender : GoString) : Keeper :=
  { k with sender := fun s => if s = slot then some sender else k.sender s }

/-! ## `RecordTransactionData` -/

/-- The message `types.MsgRecordTransactionData`. -/
structure MsgRecordTransactionData where
  Sender : GoString
  Slot : Nat
  Txs : List GoString
  StateRoot : GoString
  deriving DecidableEq, Repr

/-- The empty response `types.MsgRecordTransactionDataResponse`. -/
structure MsgRecordTransactionDataResponse where
  deriving DecidableEq, Repr

/-- The decode loop of lines 36-43: every transaction is hex decoded and
appended to `txsBz`; the first failure is returned. -/
def decodeTxs : List GoString → List Bytes → Except Err (List Bytes)
  | [], txsBz => .ok txsBz
  | tx :: rest, txsBz =>
    match hexDecodeString tx with
    | .error e => .error e
    | .ok txBz => decodeTxs rest (txsBz ++ [txBz])

/-- The handler `msgServer.RecordTransactionData`, lines 26-53. It returns the
store as the call leaves it together with the response or error. -/
def RecordTransactionData (k : Keeper) (msg : MsgRecordTransactionData) :
    Keeper × Except Err MsgRecordTransactionDataResponse :=
  if !IsTxSenderWhitelisted k msg.Sender then
    (k, .error .notWhitelisted)
  else
    match GetSender k msg.Slot with
    | (existingSender, true) => (k, .error (.slotAlreadyRecorded msg.Slot existingSender))
    | (_, false) =>
      match decodeTxs msg.Txs [] with
      | .error e => (k, .error e)
      | .ok txsBz =>
        let k1 := SetTransactionData k msg.Slot txsBz
        match hexDecodeString msg.StateRoot with
        | .error e => (k1, .error e)
        | .ok stateRootBz =>
          let k2 := SetStateRoot k1 msg.Slot stateRootBz
          let k3 := SetSender k2 msg.Slot msg.Sender
          (k3, .ok {})

/-! ## `SubmitFraudChallenge` -/

/-- Modelled from the spec: the type `types.Account` is missing; a record
keyed by a public key that holds opaque state bytes. Go compares two
accounts with `==` field by field. -/
structure Account where
  Pubkey : GoString
  State : Bytes
  deriving DecidableEq, Repr

/-- The zero value `types.Account{}`. -/
def Account.zero : Account := { Pubkey := [], State := [] }

/-- Modelled from the spec: the type `types.MerkleProof` is missing; a
claimed commitment plus the sibling path data. -/
structure MerkleProof where
  Commitment : GoString
  Path : List GoString
  deriving DecidableEq, Repr

/-- The message `types.MsgSubmitFraudChallenge`, with the fields the handler
reads. -/
structure MsgSubmitFraudChallenge where
  StartSlot : Nat
  EndSlot : Nat
  FraudStatePubKey : GoString
  MerkleProof : MerkleProof
  AccountStates : List Account
  SysvarAccounts : List Account
  Programs : List Account
  deriving DecidableEq, Repr

/-- The empty response `types.MsgSubmitFraudChallengeResponse`. -/
structure MsgSubmitFraudChallengeResponse where
  deriving DecidableEq, Repr

/-- The collaborators of the handler whose code is not part of the keeper's
message server: `Keeper.Validate` (a nil error is `none`), `replay.Replay`
and `AccountToValue`. -/
structure Collaborators where
  Validate : Bytes → MerkleProof → Option Err
  Replay : List Bytes → List Account → List Account → List Account →
    Except Err (List Account)
  AccountToValue : Account → Except Err Bytes

/-- Calls that the handler makes on the store and on its collaborators, in
the order in which they happen. -/
inductive Event where
  | getStateRoot (slot : Nat)
  | validate (root : Bytes) (proof : MerkleProof)
  | getTransactionData (slot : Nat)
  | replay (txsBz : List Bytes) (accountStates sysvarAccounts programs : List Account)
  | accountToValue (account : Account)
  deriving DecidableEq, Repr

/-- Whether the event reads the transaction ledger. -/
def Event.isLedgerRead : Event → Bool
  | .getTransactionData _ => true
  | _ => false

/-- Whether the event is an invocation of the replay engine. -/
def Event.isReplay : Event → Bool
  | .replay _ _ _ _ => true
  | _ => false

/-- Whether the event is a call of `AccountToValue`. -/
def Event.isAccountToValue : Event → Bool
  | .accountToValue _ => true
  | _ => false

/-- What a call of the handler leaves behind: the response or error, the
calls it made, and the store. -/
structure Outcome where
  result : Except Err MsgSubmitFraudChallengeResponse
  trace : List Event
  keeper : Keeper

/-- The loop of lines 72-78, started at `slot` with the batches gathered so
far in `txsBz`: while `slot <= endSlot` the batch of `slot` is appended and
`slot` is incremented as a `uint64`. Each test of the loop condition uses one
unit of fuel; `none` means the fuel ran out. The second component lists the
slots read. -/
def collectTxs (k : Keeper) (endSlot : Nat) :
    Nat → Nat → List Bytes → List Nat → Option (List Bytes × List Nat)
  | 0, _, _, _ => none
  | fuel + 1, slot, txsBz, reads =>
    if slot ≤ endSlot then
      collectTxs k endSlot fuel ((slot + 1) % slotModulus)
        (txsBz ++ (GetTransactionData k slot).1) (reads ++ [slot])
    else
      some (txsBz, reads)

/-- The scan of lines 85-91: `newAccountState` starts as the zero account and
becomes the first state whose key is the disputed one. -/
def findAccountState (key : GoString) : List Account → Account
  | [] => Account.zero
  | state :: rest => if state.Pubkey = key then state else findAccountState key rest

/-- The handler `msgServer.SubmitFraudChallenge`, lines 55-111. `none` means
that the slot loop did not finish within `fuel` iterations. -/
def SubmitFraudChallenge (c : Collaborators) (fuel : Nat) (k : Keeper)
    (msg : MsgSubmitFraudChallenge) : Option Outcome :=
  if msg.FraudStatePubKey.length = 0 then
    some ⟨.error .ErrInvalidFraudStatePubkey, [], k⟩
  else
    let t1 := [Event.getStateRoot msg.EndSlot]
    match GetStateRoot k msg.EndSlot with
    | .error e => some ⟨.error e, t1, k⟩
    | .ok merkleRoot =>
      let t2 := t1 ++ [Event.validate merkleRoot msg.MerkleProof]
      match c.Validate merkleRoot msg.MerkleProof with
      | some e => some ⟨.error e, t2, k⟩
      | none =>
        match collectTxs k msg.EndSlot fuel msg.StartSlot [] [] with
        | none => none
        | some (txsBz, reads) =>
          let t3 := t2 ++ reads.map Event.getTransactionData ++
            [Event.replay txsBz msg.AccountStates msg.SysvarAccounts msg.Programs]
          match c.Replay txsBz msg.AccountStates msg.SysvarAccounts msg.Programs with
          | .error e => some ⟨.error e, t3, k⟩
          | .ok newAccountStates =>
            let newAccountState := findAccountState msg.FraudStatePubKey newAccountStates
            if Account.zero = newAccountState then
              some ⟨.error .ErrInvalidFraudStatePubkey, t3, k⟩
            else
              let t4 := t3 ++ [Event.accountToValue newAccountState]
              match c.AccountToValue newAccountState with
              | .error e => some ⟨.error e, t4, k⟩
              | .ok newAccountStateHash =>
                let proof : MerkleProof :=
                  { msg.MerkleProof with Commitment := newAccountStateHash }
                let t5 := t4 ++ [Event.validate merkleRoot proof]
                if c.Validate merkleRoot proof ≠ some .ErrInvalidMerkleProof then
                  some ⟨.error .ErrInvalidMerkleProof, t5, k⟩
                else
                  some ⟨.ok {}, t5, k⟩

/-! ## Fixtures -/

/-- A verifier test double: a proof is valid when its commitment is the
root and its path is empty; an over-long path is a malformed proof. -/
def fixtureValidate (root : Bytes) (proof : MerkleProof) : Option Err :=
  if 2 ≤ proof.Path.length then some (.external 7)
  else if proof.Commitment = root then none
  else some .ErrInvalidMerkleProof

/-- A replay test double: the resulting accounts are the claimed ones; a
batch of more than three transactions is an engine failure. -/
def fixtureReplay (txsBz : List Bytes) (accountStates _sysvarAccounts _programs :
    List Account) : Except Err (List Account) :=
  if 3 < txsBz.length then .error (.external 1) else .ok accountStates

/-- A hasher test double: the commitment of an account is its state. -/
def fixtureAccountToValue (a : Account) : Except Err Bytes :=
  .ok a.State

/-- The test doubles as one set of collaborators. -/
def fixture : Collaborators :=
  { Validate := fixtureValidate, Replay := fixtureReplay,
    AccountToValue := fixtureAccountToValue }

/-- The store with nothing recorded and one whitelisted publisher, `[1]`. -/
def emptyKeeper : Keeper :=
  { whitelist := [[1]], txData := fun _ => none, stateRoot := fun _ => none,
    sender := fun _ => none }

/-- The store after `[1]` has recorded slot 10 with the one transaction `00`
and the state root `07`. -/
def slot10Keeper : Keeper :=
  (RecordTransactionData emptyKeeper ⟨[1], 10, [[48, 48]], [48, 55]⟩).1

/-- The store after `[1]` has recorded slot 3 with no transaction and the
state root `07`. -/
def slot3Keeper : Keeper :=
  (RecordTransactionData emptyKeeper ⟨[1], 3, [], [48, 55]⟩).1

/-- The store after `[1]` has recorded the last slot, `2 ^ 64 - 1`, with the
one transaction `00` and the state root `07`. -/
def lastSlotKeeper : Keeper :=
  (RecordTransactionData emptyKeeper ⟨[1], maxSlot, [[48, 48]], [48, 55]⟩).1

/-- The proof that the test verifier accepts against the root `[7]`. -/
def proof7 : MerkleProof := { Commitment := [7], Path := [] }

/-- A challenge over `[startSlot, endSlot]` that disputes the key `[9]` with
`proof7` and one claimed account of key `[9]` holding `state`. -/
def challenge (startSlot endSlot : Nat) (state : Bytes) : MsgSubmitFraudChallenge :=
  { StartSlot := startSlot, EndSlot := endSlot, FraudStatePubKey := [9],
    MerkleProof := proof7, AccountStates := [⟨[9], state⟩], SysvarAccounts := [],
    Programs := [] }

/-- A challenge with an empty disputed key for the never recorded slot
999. -/
def emptyKeyChallenge : MsgSubmitFraudChallenge :=
  { StartSlot := 999, EndSlot := 999, FraudStatePubKey := [],
    MerkleProof := proof7, AccountStates := [], SysvarAccounts := [], Programs := [] }

/-- A replay test double that returns only the first claimed account. -/
def fixtureReplayFirst (_txsBz : List Bytes) (accountStates _sysvarAccounts _programs :
    List Account) : Except Err (List Account) :=
  .ok (accountStates.take 1)

/-- The test doubles with the replay engine that drops all but the first
account. -/
def fixtureFirst : Collaborators :=
  { Validate := fixtureValidate, Replay := fixtureReplayFirst,
    AccountToValue := fixtureAccountToValue }

/-- A challenge on slot 10 whose claimed accounts hold the disputed key `[9]`
twice, first with the state `[7]`, then with the state `[8]`. -/
def duplicateKeyChallenge : MsgSubmitFraudChallenge :=
  { StartSlot := 10, EndSlot := 10, FraudStatePubKey := [9], MerkleProof := proof7,
    AccountStates := [⟨[9], [7]⟩, ⟨[9], [8]⟩], SysvarAccounts := [], Programs := [] }

/-- A challenge on slot 10 whose claimed accounts hold the disputed key `[9]`
twice, first with the tampered state `[8]`, then with the state `[7]`. -/
def duplicateKeyTamperedFirst : MsgSubmitFraudChallenge :=
  { StartSlot := 10, EndSlot := 10, FraudStatePubKey := [9], MerkleProof := proof7,
    AccountStates := [⟨[9], [8]⟩, ⟨[9], [7]⟩], SysvarAccounts := [], Programs := [] }

/-- A challenge with an empty disputed key on the recorded slot 10, with a
proof that the test verifier refuses. -/
def emptyKeyBadProofChallenge : MsgSubmitFraudChallenge :=
  { StartSlot := 10, EndSlot := 10, FraudStatePubKey := [],
    MerkleProof := { Commitment := [6], Path := [] }, AccountStates := [⟨[9], [7]⟩],
    SysvarAccounts := [], Programs := [] }

/-- A record of slot 1 by `[1]` with the transaction `00` and the malformed
state root `zz`. -/
def badRootRecord : MsgRecordTransactionData :=
  { Sender := [1], Slot := 1, Txs := [[48, 48]], StateRoot := [122, 122] }

/-- A record of slot 1 by `[1]` with the transaction `01` and the state root
`07`. -/
def goodRecord : MsgRecordTransactionData :=
  { Sender := [1], Slot := 1, Txs := [[48, 49]], StateRoot := [48, 55] }

/-- Every slot that has a state root has a sender. -/
def rootHasSender (k : Keeper) : Prop :=
  ∀ s, k.stateRoot s ≠ none → k.sender s ≠ none

/-! ## Definitions that follow the specification's words -/

/-- Specification side: a hexadecimal digit, `0-9`, `a-f` or `A-F`. -/
def isHexDigit (c : Nat) : Bool :=
  (decide (48 ≤ c) && decide (c ≤ 57)) || (decide (97 ≤ c) && decide (c ≤ 102)) ||
    (decide (65 ≤ c) && decide (c ≤ 70))

/-- Specification side: a hex string has an even number of characters, all of
them hexadecimal digits. -/
def validHex (s : GoString) : Prop :=
  s.length % 2 = 0 ∧ ∀ c ∈ s, isHexDigit c = true

instance validHexDecidable (s : GoString) : Decidable (validHex s) :=
  inferInstanceAs (Decidable (s.length % 2 = 0 ∧ ∀ c ∈ s, isHexDigit c = true))

/-- Specification side: the value of a hexadecimal digit. -/
def hexDigitValue (c : Nat) : Nat :=
  if c ≤ 57 then c - 48 else if c ≤ 70 then c - 55 else c - 87

/-- Specification side: the bytes that a hex string denotes, two digits per
byte, most significant digit first. -/
def hexBytes : GoString → Bytes
  | p :: q :: rest => (16 * hexDigitValue p + hexDigitValue q) :: hexBytes rest
  | _ => []

/-- A history of record calls, successful or failing, applied in order. -/
def recordAll (k : Keeper) : List MsgRecordTransactionData → Keeper
  | [] => k
  | msg :: rest => recordAll (RecordTransactionData k msg).1 rest

/-- Specification side: the recorded batches of `count` consecutive slots
from `start`, concatenated in increasing slot order; a slot with no record
contributes nothing. -/
def rangeBatches (k : Keeper) (start count : Nat) : List Bytes :=
  ((List.range' start count).map (fun s => (k.txData s).getD [])).flatten

/-! ## Hex decoding -/

theorem fromHexChar_of_isHexDigit (c : Nat) (h : isHexDigit c = true) :
    fromHexChar c = some (hexDigitValue c) := by
  simp only [isHexDigit, Bool.or_eq_true, Bool.and_eq_true, decide_eq_true_eq] at h
  unfold fromHexChar hexDigitValue
  rcases h with (h | h) | h
  · rw [if_pos h, if_pos h.2]
  · have h1 : ¬ (48 ≤ c ∧ c ≤ 57) := by omega
    have h2 : ¬ c ≤ 57 := by omega
    have h3 : ¬ c ≤ 70 := by omega
    rw [if_neg h1, if_pos h, if_neg h2, if_neg h3]
    congr 1; omega
  · have h1 : ¬ (48 ≤ c ∧ c ≤ 57) := by omega
    have h2 : ¬ (97 ≤ c ∧ c ≤ 102) := by omega
    have h3 : ¬ c ≤ 57 := by omega
    rw [if_neg h1, if_neg h2, if_pos h, if_neg h3, if_pos h.2]
    congr 1; omega

theorem fromHexChar_isSome_iff (c : Nat) :
    (fromHexChar c).isSome = isHexDigit c := by
  unfold fromHexChar isHexDigit
  by_cases h1 : 48 ≤ c ∧ c ≤ 57
  · simp [h1]
  · by_cases h2 : 97 ≤ c ∧ c ≤ 102
    · simp [h1, h2]
    · by_cases h3 : 65 ≤ c ∧ c ≤ 70
      · simp [h1, h2, h3]
      · rw [if_neg h1, if_neg h2, if_neg h3]
        have e1 : (decide (48 ≤ c) && decide (c ≤ 57)) = false := by
          simpa [Bool.and_eq_false_iff] using h1
        have e2 : (decide (97 ≤ c) && decide (c ≤ 102)) = false := by
          simpa [Bool.and_eq_false_iff] using h2
        have e3 : (decide (65 ≤ c) && decide (c ≤ 70)) = false := by
          simpa [Bool.and_eq_false_iff] using h3
        rw [e1, e2, e3]; rfl

/-- A valid hex string decodes, and to the bytes it denotes. -/
theorem hexDecodeString_of_validHex :
    ∀ (s : GoString), validHex s → hexDecodeString s = .ok (hexBytes s)
  | [], _ => rfl
  | [p], h => by
    have := h.1
    simp at this
  | p :: q :: rest, h => by
    have hp : isHexDigit p = true := h.2 p (by simp)
    have hq : isHexDigit q = true := h.2 q (by simp)
    have hrest : validHex rest := by
      refine ⟨?_, fun c hc => h.2 c (by simp [hc])⟩
      have := h.1
      simp only [List.length_cons] at this
      omega
    have ih := hexDecodeString_of_validHex rest hrest
    simp only [hexDecodeString, fromHexChar_of_isHexDigit p hp,
      fromHexChar_of_isHexDigit q hq, ih, hexBytes]
    congr 2
    omega

/-- Decoding succeeds only on valid hex strings. -/
theorem validHex_of_hexDecodeString :
    ∀ (s : GoString) (bz : Bytes), hexDecodeString s = .ok bz → validHex s
  | [], _, _ => ⟨rfl, by simp⟩
  | [p], bz, h => by
    unfold hexDecodeString at h
    cases hp : fromHexChar p <;> simp [hp] at h
  | p :: q :: rest, bz, h => by
    unfold hexDecodeString at h
    cases hp : fromHexChar p with
    | none => simp [hp] at h
    | some a =>
      cases hq : fromHexChar q with
      | none => simp [hp, hq] at h
      | some b =>
        cases hr : hexDecodeString rest with
        | error e => simp [hp, hq, hr] at h
        | ok bz1 =>
          have ih := validHex_of_hexDecodeString rest bz1 hr
          have dp : isHexDigit p = true := by
            rw [← fromHexChar_isSome_iff, hp]; rfl
          have dq : isHexDigit q = true := by
            rw [← fromHexChar_isSome_iff, hq]; rfl
          refine ⟨?_, ?_⟩
          · have := ih.1
            simp only [List.length_cons]
            omega
          · intro c hc
            simp only [List.mem_cons] at hc
            rcases hc with rfl | rfl | hc
            · exact dp
            · exact dq
            · exact ih.2 c hc

/-- The decode loop appends the decoded transactions, in order, to what it
was started with. -/
theorem decodeTxs_of_validHex :
    ∀ (txs : List GoString) (acc : List Bytes), (∀ tx ∈ txs, validHex tx) →
      decodeTxs txs acc = .ok (acc ++ txs.map hexBytes)
  | [], acc, _ => by simp [decodeTxs]
  | tx :: rest, acc, h => by
    have htx := hexDecodeString_of_validHex tx (h tx (by simp))
    have ih := decodeTxs_of_validHex rest (acc ++ [hexBytes tx])
      (fun t ht => h t (by simp [ht]))
    simp [decodeTxs, htx, ih]

/-! ## `RecordTransactionData` -/

theorem GetSender_of_some (k : Keeper) (slot : Nat) (x : GoString)
    (h : k.sender slot = some x) : GetSender k slot = (x, true) := by
  simp [GetSender, h]

theorem GetSender_of_none (k : Keeper) (slot : Nat)
    (h : k.sender slot = none) : GetSender k slot = ([], false) := by
  simp [GetSender, h]

/-- A record call never changes the whitelist. -/
theorem record_whitelist (k : Keeper) (msg : MsgRecordTransactionData) :
    (RecordTransactionData k msg).1.whitelist = k.whitelist := by
  unfold RecordTransactionData
  split
  · rfl
  · split
    · rfl
    · split
      · rfl
      · split <;> rfl

/-- A slot whose sender is recorded keeps its sender, batch and root through
any record call. -/
theorem record_keeps_recorded (k : Keeper) (msg : MsgRecordTransactionData)
    (s : Nat) (x : GoString) (h : k.sender s = some x) :
    (RecordTransactionData k msg).1.sender s = some x ∧
    (RecordTransactionData k msg).1.txData s = k.txData s ∧
    (RecordTransactionData k msg).1.stateRoot s = k.stateRoot s := by
  unfold RecordTransactionData
  split
  · exact ⟨h, rfl, rfl⟩
  · split
    · exact ⟨h, rfl, rfl⟩
    · rename_i hs
      have hne : s ≠ msg.Slot := by
        intro e
        subst e
        rw [GetSender_of_some k _ x h] at hs
        simp at hs
      split
      · exact ⟨h, rfl, rfl⟩
      · split
        · simp [SetTransactionData, hne, h]
        · simp [SetTransactionData, SetStateRoot, SetSender, hne, h]

/-- The same through a whole history of record calls. -/
theorem recordAll_keeps_recorded :
    ∀ (msgs : List MsgRecordTransactionData) (k : Keeper) (s : Nat) (x : GoString),
      k.sender s = some x →
      (recordAll k msgs).sender s = some x ∧
      (recordAll k msgs).txData s = k.txData s ∧
      (recordAll k msgs).stateRoot s = k.stateRoot s ∧
      (recordAll k msgs).whitelist = k.whitelist
  | [], _, _, _, h => ⟨h, rfl, rfl, rfl⟩
  | msg :: rest, k, s, x, h => by
    obtain ⟨h1, h2, h3⟩ := record_keeps_recorded k msg s x h
    obtain ⟨i1, i2, i3, i4⟩ :=
      recordAll_keeps_recorded rest (RecordTransactionData k msg).1 s x h1
    exact ⟨i1, i2.trans h2, i3.trans h3, i4.trans (record_whitelist k msg)⟩

/-- What a successful record call has checked and written. -/
theorem record_ok_inv (k k1 : Keeper) (msg : MsgRecordTransactionData)
    (r : MsgRecordTransactionDataResponse)
    (h : RecordTransactionData k msg = (k1, .ok r)) :
    ∃ txsBz stateRootBz,
      decodeTxs msg.Txs [] = .ok txsBz ∧
      hexDecodeString msg.StateRoot = .ok stateRootBz ∧
      k1 = SetSender (SetStateRoot (SetTransactionData k msg.Slot txsBz) msg.Slot
        stateRootBz) msg.Slot msg.Sender := by
  unfold RecordTransactionData at h
  split at h
  · simp at h
  · split at h
    · simp at h
    · split at h
      · simp at h
      · rename_i txsBz htx
        split at h
        · simp at h
        · rename_i stateRootBz hroot
          refine ⟨txsBz, stateRootBz, htx, hroot, ?_⟩
          simp only [Prod.mk.injEq] at h
          exact h.1.symm

/-- A record call whose transactions do not all decode writes nothing. -/
theorem record_tx_decode_error (k : Keeper) (msg : MsgRecordTransactionData)
    (e : Err) (hw : msg.Sender ∈ k.whitelist) (hs : k.sender msg.Slot = none)
    (htx : decodeTxs msg.Txs [] = .error e) :
    RecordTransactionData k msg = (k, .error e) := by
  simp [RecordTransactionData, IsTxSenderWhitelisted, hw, GetSender_of_none k _ hs, htx]

/-- A record call whose transactions decode but whose state root does not
returns the decode error after the batch has been stored. -/
theorem record_root_decode_error (k : Keeper) (msg : MsgRecordTransactionData)
    (txsBz : List Bytes) (e : Err) (hw : msg.Sender ∈ k.whitelist)
    (hs : k.sender msg.Slot = none) (htx : decodeTxs msg.Txs [] = .ok txsBz)
    (hroot : hexDecodeString msg.StateRoot = .error e) :
    RecordTransactionData k msg = (SetTransactionData k msg.Slot txsBz, .error e) := by
  simp [RecordTransactionData, IsTxSenderWhitelisted, hw, GetSender_of_none k _ hs, htx,
    hroot]

/-- C3, evaluated on the code: the whitelisted sender `[1]` records the
unrecorded slot 1 with the transaction `00` and the state root `zz`. The call
returns the decode error of the root, no sender and no root are stored, and
yet the batch of slot 1, absent before, is now stored: a partial write. -/
theorem record_root_decode_partial_write :
    (RecordTransactionData emptyKeeper ⟨[1], 1, [[48, 48]], [122, 122]⟩).2
        = .error (.hexInvalidByte 122) ∧
      emptyKeeper.txData 1 = none ∧
      (RecordTransactionData emptyKeeper ⟨[1], 1, [[48, 48]], [122, 122]⟩).1.txData 1
        = some [[0]] ∧
      (RecordTransactionData emptyKeeper ⟨[1], 1, [[48, 48]], [122, 122]⟩).1.stateRoot 1
        = none ∧
      (RecordTransactionData emptyKeeper ⟨[1], 1, [[48, 48]], [122, 122]⟩).1.sender 1
        = none := by
  refine ⟨?_, ?_, ?_, ?_, ?_⟩ <;> decide

/-- C4 (write-once): after a successful record of a slot, and after any
further history of record calls, every record call for that slot by a
whitelisted sender fails with the slot-already-recorded error naming the
first sender and leaves the store as it was; the sender, the root and the
batch read back are those of the first record. -/
theorem record_write_once (k k1 : Keeper) (first later : MsgRecordTransactionData)
    (r : MsgRecordTransactionDataResponse) (history : List MsgRecordTransactionData)
    (hfirst : RecordTransactionData k first = (k1, .ok r))
    (hslot : later.Slot = first.Slot)
    (hw : later.Sender ∈ k.whitelist) :
    RecordTransactionData (recordAll k1 history) later
        = (recordAll k1 history, .error (.slotAlreadyRecorded first.Slot first.Sender)) ∧
      GetSender (recordAll k1 history) first.Slot = (first.Sender, true) ∧
      (∃ root, hexDecodeString first.StateRoot = .ok root ∧
        GetStateRoot (recordAll k1 history) first.Slot = .ok root) ∧
      (∃ txs, decodeTxs first.Txs [] = .ok txs ∧
        GetTransactionData (recordAll k1 history) first.Slot = (txs, none)) := by
  obtain ⟨txsBz, rootBz, htx, hroot, hk1⟩ := record_ok_inv k k1 first r hfirst
  have hs1 : k1.sender first.Slot = some first.Sender := by
    rw [hk1]; simp [SetSender]
  have ht1 : k1.txData first.Slot = some txsBz := by
    rw [hk1]; simp [SetSender, SetStateRoot, SetTransactionData]
  have hr1 : k1.stateRoot first.Slot = some rootBz := by
    rw [hk1]; simp [SetSender, SetStateRoot]
  have hwl1 : k1.whitelist = k.whitelist := by
    have := record_whitelist k first
    rw [hfirst] at this
    exact this
  obtain ⟨i1, i2, i3, i4⟩ := recordAll_keeps_recorded history k1 first.Slot first.Sender hs1
  have hw2 : later.Sender ∈ (recordAll k1 history).whitelist := by
    rw [i4, hwl1]; exact hw
  refine ⟨?_, GetSender_of_some _ _ _ i1, ⟨rootBz, hroot, ?_⟩, ⟨txsBz, htx, ?_⟩⟩
  · simp [RecordTransactionData, IsTxSenderWhitelisted, hw2, hslot,
      GetSender_of_some _ _ _ i1]
  · simp [GetStateRoot, i3, hr1]
  · simp [GetTransactionData, i2, ht1]

/-- An instance of `record_write_once`: slot 1 is recorded by `[1]`, a record
of slot 2 follows, and a second record of slot 1 is refused. -/
theorem record_write_once_witness :
    RecordTransactionData
        (recordAll (RecordTransactionData emptyKeeper ⟨[1], 1, [[48, 48]], [49, 48]⟩).1
          [⟨[1], 2, [], []⟩])
        ⟨[1], 1, [[70, 70]], [48, 49]⟩
      = (recordAll (RecordTransactionData emptyKeeper ⟨[1], 1, [[48, 48]], [49, 48]⟩).1
          [⟨[1], 2, [], []⟩], .error (.slotAlreadyRecorded 1 [1])) :=
  (record_write_once emptyKeeper
    (RecordTransactionData emptyKeeper ⟨[1], 1, [[48, 48]], [49, 48]⟩).1
    ⟨[1], 1, [[48, 48]], [49, 48]⟩ ⟨[1], 1, [[70, 70]], [48, 49]⟩ {} [⟨[1], 2, [], []⟩]
    rfl rfl (by decide)).1

/-- C5 (unauthorized sender): a record call whose sender is not whitelisted
fails with the authorization error and returns the store untouched, whatever
the slot, the transactions and the state root are. -/
theorem record_unauthorized (k : Keeper) (msg : MsgRecordTransactionData)
    (h : msg.Sender ∉ k.whitelist) :
    RecordTransactionData k msg = (k, .error .notWhitelisted) := by
  simp [RecordTransactionData, IsTxSenderWhitelisted, h]

/-- An instance of `record_unauthorized`: the sender `[2]` is not whitelisted,
the slot is already recorded and the hex is malformed. -/
theorem record_unauthorized_witness :
    RecordTransactionData
        (RecordTransactionData emptyKeeper ⟨[1], 1, [[48, 48]], [49, 48]⟩).1
        ⟨[2], 1, [[122]], [122]⟩
      = ((RecordTransactionData emptyKeeper ⟨[1], 1, [[48, 48]], [49, 48]⟩).1,
          .error .notWhitelisted) :=
  record_unauthorized _ ⟨[2], 1, [[122]], [122]⟩ (by decide)

/-- C8 (successful record): a whitelisted sender records a slot that has no
recorded sender with transactions and a state root that are valid hex. The
call succeeds; the slot then holds the bytes denoted by the transactions, in
the order and number submitted, the bytes denoted by the state root, and the
sender of the message; every other slot is as before. -/
theorem record_success (k : Keeper) (msg : MsgRecordTransactionData)
    (hw : msg.Sender ∈ k.whitelist) (hs : k.sender msg.Slot = none)
    (htxs : ∀ tx ∈ msg.Txs, validHex tx) (hroot : validHex msg.StateRoot) :
    (RecordTransactionData k msg).2 = .ok {} ∧
      (RecordTransactionData k msg).1.txData msg.Slot = some (msg.Txs.map hexBytes) ∧
      (RecordTransactionData k msg).1.stateRoot msg.Slot
        = some (hexBytes msg.StateRoot) ∧
      (RecordTransactionData k msg).1.sender msg.Slot = some msg.Sender ∧
      (RecordTransactionData k msg).1.whitelist = k.whitelist ∧
      ∀ s, s ≠ msg.Slot →
        (RecordTransactionData k msg).1.txData s = k.txData s ∧
        (RecordTransactionData k msg).1.stateRoot s = k.stateRoot s ∧
        (RecordTransactionData k msg).1.sender s = k.sender s := by
  have h1 := decodeTxs_of_validHex msg.Txs [] htxs
  have h2 := hexDecodeString_of_validHex msg.StateRoot hroot
  simp only [List.nil_append] at h1
  have e : RecordTransactionData k msg
      = (SetSender (SetStateRoot (SetTransactionData k msg.Slot (msg.Txs.map hexBytes))
          msg.Slot (hexBytes msg.StateRoot)) msg.Slot msg.Sender, .ok {}) := by
    simp [RecordTransactionData, IsTxSenderWhitelisted, hw, GetSender_of_none k _ hs, h1, h2]
  rw [e]
  refine ⟨rfl, ?_, ?_, ?_, rfl, ?_⟩
  · simp [SetSender, SetStateRoot, SetTransactionData]
  · simp [SetSender, SetStateRoot]
  · simp [SetSender]
  · intro s hne
    simp [SetSender, SetStateRoot, SetTransactionData, hne]

/-- An instance of `record_success`: `[1]` records slot 1 with the
transactions `01` and `aF` and the root `10`. -/
theorem record_success_witness :
    (RecordTransactionData emptyKeeper ⟨[1], 1, [[48, 49], [97, 70]], [49, 48]⟩).2
        = .ok {} ∧
      (RecordTransactionData emptyKeeper ⟨[1], 1, [[48, 49], [97, 70]], [49, 48]⟩).1.txData 1
        = some [[1], [175]] :=
  have h := record_success emptyKeeper ⟨[1], 1, [[48, 49], [97, 70]], [49, 48]⟩
    (by decide) rfl (by decide) (by decide)
  ⟨h.1, h.2.1⟩

/-! ## The slot loop -/

theorem GetTransactionData_fst (k : Keeper) (slot : Nat) :
    (GetTransactionData k slot).1 = (k.txData slot).getD [] := by
  unfold GetTransactionData
  cases k.txData slot <;> rfl

/-- When the start slot is above the end slot the loop body never runs. -/
theorem collectTxs_inverted (k : Keeper) (endSlot fuel slot : Nat)
    (txsBz : List Bytes) (reads : List Nat) (h : endSlot < slot) :
    collectTxs k endSlot (fuel + 1) slot txsBz reads = some (txsBz, reads) := by
  have : ¬ slot ≤ endSlot := by omega
  simp [collectTxs, this]

/-- Below the last `uint64` the loop reads the `count` slots up to the end
slot once each, in increasing order, and stops. -/
theorem collectTxs_range (k : Keeper) (endSlot : Nat) (hend : endSlot < maxSlot) :
    ∀ (count slot : Nat) (txsBz : List Bytes) (reads : List Nat),
      slot + count = endSlot + 1 →
      collectTxs k endSlot (count + 1) slot txsBz reads
        = some (txsBz ++ rangeBatches k slot count, reads ++ List.range' slot count)
  | 0, slot, txsBz, reads, h => by
    have : ¬ slot ≤ endSlot := by omega
    simp [collectTxs, this, rangeBatches]
  | count + 1, slot, txsBz, reads, h => by
    have hle : slot ≤ endSlot := by omega
    have hlt : slot + 1 < slotModulus := by
      unfold maxSlot at hend
      unfold slotModulus
      omega
    have ih := collectTxs_range k endSlot hend count (slot + 1)
      (txsBz ++ (GetTransactionData k slot).1) (reads ++ [slot]) (by omega)
    rw [collectTxs, if_pos hle, Nat.mod_eq_of_lt hlt, ih, GetTransactionData_fst]
    simp [rangeBatches, List.range'_succ]

/-- More fuel does not change a loop that has finished. -/
theorem collectTxs_fuel_mono (k : Keeper) (endSlot : Nat) :
    ∀ (fuel extra slot : Nat) (txsBz : List Bytes) (reads : List Nat)
      (r : List Bytes × List Nat),
      collectTxs k endSlot fuel slot txsBz reads = some r →
      collectTxs k endSlot (fuel + extra) slot txsBz reads = some r
  | 0, _, _, _, _, _, h => by simp [collectTxs] at h
  | fuel + 1, extra, slot, txsBz, reads, r, h => by
    rw [show fuel + 1 + extra = (fuel + extra) + 1 by omega]
    rw [collectTxs] at h ⊢
    by_cases hle : slot ≤ endSlot
    · rw [if_pos hle] at h ⊢
      exact collectTxs_fuel_mono k endSlot fuel extra _ _ _ r h
    · rw [if_neg hle] at h ⊢
      exact h

/-- When the end slot is the last `uint64` the loop condition holds for every
`uint64`, the increment wraps, and no amount of fuel finishes the loop. -/
theorem collectTxs_last_slot (k : Keeper) :
    ∀ (fuel slot : Nat) (txsBz : List Bytes) (reads : List Nat), slot ≤ maxSlot →
      collectTxs k maxSlot fuel slot txsBz reads = none
  | 0, _, _, _, _ => rfl
  | fuel + 1, slot, txsBz, reads, h => by
    have hnext : (slot + 1) % slotModulus ≤ maxSlot := by
      have : (slot + 1) % slotModulus < slotModulus :=
        Nat.mod_lt _ (by unfold slotModulus; positivity)
      unfold slotModulus at this ⊢
      unfold maxSlot
      omega
    rw [collectTxs, if_pos h]
    exact collectTxs_last_slot k fuel _ _ _ hnext

/-! ## The account scan -/

/-- The scan returns the first account with the disputed key, and the zero
account if there is none. -/
theorem findAccountState_eq_find (key : GoString) :
    ∀ (states : List Account),
      findAccountState key states
        = (states.find? (fun s => decide (s.Pubkey = key))).getD Account.zero
  | [] => rfl
  | state :: rest => by
    by_cases h : state.Pubkey = key
    · simp [findAccountState, List.find?, h]
    · simp [findAccountState, List.find?, h, findAccountState_eq_find key rest]

/-- What the scan returns is the zero account or carries the disputed key. -/
theorem findAccountState_cases (key : GoString) :
    ∀ (states : List Account),
      (findAccountState key states = Account.zero ∧ ∀ a ∈ states, a.Pubkey ≠ key) ∨
      (findAccountState key states ∈ states ∧ (findAccountState key states).Pubkey = key)
  | [] => Or.inl ⟨rfl, by simp⟩
  | state :: rest => by
    by_cases h : state.Pubkey = key
    · right
      simp [findAccountState, h]
    · rcases findAccountState_cases key rest with ⟨h1, h2⟩ | ⟨h1, h2⟩
      · left
        refine ⟨by simp [findAccountState, h, h1], ?_⟩
        intro a ha
        simp only [List.mem_cons] at ha
        rcases ha with rfl | ha
        · exact h
        · exact h2 a ha
      · right
        simp [findAccountState, h, h1, h2]

/-- With a non-empty disputed key, the comparison with the zero account
holds exactly when no account of the output carries the key. -/
theorem findAccountState_zero_iff (key : GoString) (hkey : key ≠ [])
    (states : List Account) :
    Account.zero = findAccountState key states ↔ ∀ a ∈ states, a.Pubkey ≠ key := by
  constructor
  · intro hz
    rcases findAccountState_cases key states with ⟨_, h2⟩ | ⟨_, h2⟩
    · exact h2
    · rw [← hz] at h2
      exact absurd h2.symm hkey
  · intro hnone
    rcases findAccountState_cases key states with ⟨h1, _⟩ | ⟨h1, h2⟩
    · exact h1.symm
    · exact absurd h2 (hnone _ h1)

/-! ## `SubmitFraudChallenge` -/

/-- C1 (proof symmetry): the disputed key is non-empty, the root `R` of the
end slot is recorded, the claimed proof validates against `R`, the slot loop
has finished and replay succeeds, `a` is the first account of the output
with the disputed key and `AccountToValue a` is `h`. With the commitment of
the claimed proof replaced by `h` and its path kept: if the proof validates
against `R` the challenge is rejected with `ErrInvalidMerkleProof`; if it
fails with `ErrInvalidMerkleProof` the challenge is accepted. -/
theorem challenge_proof_symmetry (c : Collaborators) (fuel : Nat) (k : Keeper)
    (msg : MsgSubmitFraudChallenge) (R : Bytes) (txsBz : List Bytes) (reads : List Nat)
    (out : List Account) (a : Account) (h : Bytes)
    (hkey : msg.FraudStatePubKey ≠ [])
    (hroot : GetStateRoot k msg.EndSlot = .ok R)
    (hvalid : c.Validate R msg.MerkleProof = none)
    (hloop : collectTxs k msg.EndSlot fuel msg.StartSlot [] [] = some (txsBz, reads))
    (hreplay : c.Replay txsBz msg.AccountStates msg.SysvarAccounts msg.Programs = .ok out)
    (hfound : out.find? (fun s => decide (s.Pubkey = msg.FraudStatePubKey)) = some a)
    (hhash : c.AccountToValue a = .ok h) :
    (c.Validate R { Commitment := h, Path := msg.MerkleProof.Path } = none →
      (SubmitFraudChallenge c fuel k msg).map Outcome.result
        = some (.error .ErrInvalidMerkleProof)) ∧
    (c.Validate R { Commitment := h, Path := msg.MerkleProof.Path }
        = some .ErrInvalidMerkleProof →
      (SubmitFraudChallenge c fuel k msg).map Outcome.result = some (.ok {})) := by
  have ha : findAccountState msg.FraudStatePubKey out = a := by
    rw [findAccountState_eq_find, hfound]; rfl
  have hpk : a.Pubkey = msg.FraudStatePubKey := by
    simpa using List.find?_some hfound
  have hnz : ¬ Account.zero = a := by
    intro e
    rw [← e] at hpk
    exact hkey hpk.symm
  have hlen : ¬ msg.FraudStatePubKey.length = 0 := by
    simpa using hkey
  constructor
  · intro hv
    simp only [SubmitFraudChallenge, if_neg hlen, hroot, hvalid, hloop, hreplay, ha,
      if_neg hnz, hhash, hv]
    simp
  · intro hv
    simp only [SubmitFraudChallenge, if_neg hlen, hroot, hvalid, hloop, hreplay, ha,
      if_neg hnz, hhash, hv]
    simp

/-- Instances of `challenge_proof_symmetry` on slot 10 recorded with root
`[7]`: the matching fixture, whose replayed account hashes to `[7]`, is
rejected; the tampered fixture, whose replayed account hashes to `[8]`, is
accepted. -/
theorem challenge_proof_symmetry_witness :
    (SubmitFraudChallenge fixture 2 slot10Keeper (challenge 10 10 [7])).map Outcome.result
        = some (.error .ErrInvalidMerkleProof) ∧
      (SubmitFraudChallenge fixture 2 slot10Keeper (challenge 10 10 [8])).map Outcome.result
        = some (.ok {}) :=
  ⟨(challenge_proof_symmetry fixture 2 slot10Keeper (challenge 10 10 [7]) [7] [[0]] [10]
      [⟨[9], [7]⟩] ⟨[9], [7]⟩ [7] (by decide) (by decide) (by decide) (by decide)
      (by decide) (by decide) (by decide)).1 (by decide),
   (challenge_proof_symmetry fixture 2 slot10Keeper (challenge 10 10 [8]) [7] [[0]] [10]
      [⟨[9], [8]⟩] ⟨[9], [8]⟩ [8] (by decide) (by decide) (by decide) (by decide)
      (by decide) (by decide) (by decide)).2 (by decide)⟩

/-- C6 as stated fails: on slot 3 recorded with root `[7]`, the challenge
for the range `[5, 3]` with a valid proof is not failed. The replay engine is
invoked, with no transactions, and the challenge is accepted. -/
theorem challenge_inverted_range_accepted :
    5 > 3 ∧
    (SubmitFraudChallenge fixture 1 slot3Keeper (challenge 5 3 [8])).map
        (fun o => (o.result, o.trace))
      = some (.ok {}, [.getStateRoot 3, .validate [7] proof7,
          .replay [] [⟨[9], [8]⟩] [] [], .accountToValue ⟨[9], [8]⟩,
          .validate [7] ⟨[8], []⟩]) := by
  decide

/-- C6 as amended: the handler has no range check. For a challenge with the
start slot above the end slot that passes the key, root and proof checks, the
loop reads no slot, the replay engine is invoked exactly once, with the empty
transaction sequence, and the call returns. -/
theorem challenge_inverted_range (c : Collaborators) (fuel : Nat) (k : Keeper)
    (msg : MsgSubmitFraudChallenge) (R : Bytes)
    (hrange : msg.EndSlot < msg.StartSlot)
    (hkey : msg.FraudStatePubKey ≠ [])
    (hroot : GetStateRoot k msg.EndSlot = .ok R)
    (hvalid : c.Validate R msg.MerkleProof = none) :
    ∃ o, SubmitFraudChallenge c (fuel + 1) k msg = some o ∧
      o.trace.filter Event.isLedgerRead = [] ∧
      o.trace.filter Event.isReplay
        = [.replay [] msg.AccountStates msg.SysvarAccounts msg.Programs] := by
  have hlen : ¬ msg.FraudStatePubKey.length = 0 := by
    simpa using hkey
  have hloop := collectTxs_inverted k msg.EndSlot fuel msg.StartSlot [] [] hrange
  simp only [SubmitFraudChallenge, if_neg hlen, hroot, hvalid, hloop]
  cases c.Replay [] msg.AccountStates msg.SysvarAccounts msg.Programs with
  | error e => exact ⟨_, rfl, rfl, rfl⟩
  | ok out =>
    dsimp only
    by_cases hz : Account.zero = findAccountState msg.FraudStatePubKey out
    · rw [if_pos hz]
      exact ⟨_, rfl, rfl, rfl⟩
    · rw [if_neg hz]
      cases c.AccountToValue (findAccountState msg.FraudStatePubKey out) with
      | error e => exact ⟨_, rfl, rfl, rfl⟩
      | ok h =>
        dsimp only
        split
        · exact ⟨_, rfl, rfl, rfl⟩
        · exact ⟨_, rfl, rfl, rfl⟩

/-- An instance of `challenge_inverted_range`: the range `[5, 3]` on slot 3
recorded with root `[7]`. -/
theorem challenge_inverted_range_witness :
    ∃ o, SubmitFraudChallenge fixture 1 slot3Keeper (challenge 5 3 [8]) = some o ∧
      o.trace.filter Event.isLedgerRead = [] ∧
      o.trace.filter Event.isReplay = [.replay [] [⟨[9], [8]⟩] [] []] :=
  challenge_inverted_range fixture 0 slot3Keeper (challenge 5 3 [8]) [7]
    (by decide) (by decide) (by decide) (by decide)

/-- Range reads below the last slot: for a start slot at most the end slot
and an end slot below `2 ^ 64 - 1`, the loop finishes within
`endSlot - startSlot + 2` tests of its condition and yields the recorded
batches of the slots of `[startSlot, endSlot]`, concatenated in increasing
slot order, an unrecorded slot contributing nothing. -/
theorem collectTxs_inclusive (k : Keeper) (startSlot endSlot extra : Nat)
    (hrange : startSlot ≤ endSlot) (hend : endSlot < maxSlot) :
    collectTxs k endSlot (endSlot - startSlot + 2 + extra) startSlot [] []
      = some (rangeBatches k startSlot (endSlot - startSlot + 1),
          List.range' startSlot (endSlot - startSlot + 1)) := by
  have h := collectTxs_range k endSlot hend (endSlot - startSlot + 1) startSlot [] []
    (by omega)
  simp only [List.nil_append] at h
  exact collectTxs_fuel_mono k endSlot _ extra _ _ _ _ h

/-- C7, evaluated on the code at the end slot `2 ^ 64 - 1`: the last slot is
recorded with root `[7]` and the challenge for the range
`[2 ^ 64 - 1, 2 ^ 64 - 1]` carries a valid proof, so it passes the initial
proof check; yet for every amount of fuel the handler does not return, so no
transaction sequence is ever handed to the replay engine. -/
theorem challenge_last_slot_no_replay :
    maxSlot ≤ maxSlot ∧ maxSlot < slotModulus ∧
    GetStateRoot lastSlotKeeper maxSlot = .ok [7] ∧
    fixture.Validate [7] (challenge maxSlot maxSlot [7]).MerkleProof = none ∧
    ∀ fuel, SubmitFraudChallenge fixture fuel lastSlotKeeper (challenge maxSlot maxSlot [7])
      = none := by
  have hroot : GetStateRoot lastSlotKeeper maxSlot = .ok [7] := by decide
  have hvalid : fixture.Validate [7] (challenge maxSlot maxSlot [7]).MerkleProof = none := by
    decide
  refine ⟨le_refl _, by decide, hroot, hvalid, ?_⟩
  intro fuel
  have hloop := collectTxs_last_slot lastSlotKeeper fuel maxSlot [] [] (le_refl _)
  have hlen : ¬ (challenge maxSlot maxSlot [7]).FraudStatePubKey.length = 0 := by decide
  have hroot2 : GetStateRoot lastSlotKeeper (challenge maxSlot maxSlot [7]).EndSlot
      = .ok [7] := hroot
  have hloop2 : collectTxs lastSlotKeeper (challenge maxSlot maxSlot [7]).EndSlot fuel
      (challenge maxSlot maxSlot [7]).StartSlot [] [] = none := hloop
  simp only [SubmitFraudChallenge, if_neg hlen, hroot2, hvalid, hloop2]

/-- C9 as stated fails: the challenge for the never recorded slot 999 with an
empty disputed key does not return the slot-not-found error of `GetStateRoot`
but `ErrInvalidFraudStatePubkey`. -/
theorem challenge_empty_key_before_root :
    GetStateRoot emptyKeeper emptyKeyChallenge.EndSlot = .error (.slotNotFound 999) ∧
    (SubmitFraudChallenge fixture 0 emptyKeeper emptyKeyChallenge).map Outcome.result
      = some (.error .ErrInvalidFraudStatePubkey) ∧
    (SubmitFraudChallenge fixture 0 emptyKeeper emptyKeyChallenge).map Outcome.result
      ≠ some (.error (.slotNotFound 999)) := by
  decide

/-- C9 as amended: for a challenge with a non-empty disputed key, if
`GetStateRoot` of the end slot fails with `e`, or if the root exists and the
claimed proof fails validation against it with `e`, the handler returns `e`,
whatever the fuel, and has neither read the transaction ledger nor invoked
the replay engine. -/
theorem challenge_early_rejection (c : Collaborators) (fuel : Nat) (k : Keeper)
    (msg : MsgSubmitFraudChallenge) (e : Err)
    (hkey : msg.FraudStatePubKey ≠ [])
    (hfail : GetStateRoot k msg.EndSlot = .error e ∨
      ∃ R, GetStateRoot k msg.EndSlot = .ok R ∧ c.Validate R msg.MerkleProof = some e) :
    ∃ o, SubmitFraudChallenge c fuel k msg = some o ∧ o.result = .error e ∧
      o.trace.filter Event.isLedgerRead = [] ∧ o.trace.filter Event.isReplay = [] := by
  have hlen : ¬ msg.FraudStatePubKey.length = 0 := by
    simpa using hkey
  rcases hfail with hroot | ⟨R, hroot, hvalid⟩
  · simp only [SubmitFraudChallenge, if_neg hlen, hroot]
    exact ⟨_, rfl, rfl, rfl, rfl⟩
  · simp only [SubmitFraudChallenge, if_neg hlen, hroot, hvalid]
    exact ⟨_, rfl, rfl, rfl, rfl⟩

/-- Instances of `challenge_early_rejection`: the end slot 999 was never
recorded; and slot 10 is recorded with root `[7]` but the claimed proof
commits to `[6]`. -/
theorem challenge_early_rejection_witness :
    (∃ o, SubmitFraudChallenge fixture 0 slot10Keeper (challenge 10 999 [7]) = some o ∧
      o.result = .error (.slotNotFound 999) ∧
      o.trace.filter Event.isLedgerRead = [] ∧ o.trace.filter Event.isReplay = []) ∧
    (∃ o, SubmitFraudChallenge fixture 0 slot10Keeper
        { challenge 10 10 [7] with MerkleProof := ⟨[6], []⟩ } = some o ∧
      o.result = .error .ErrInvalidMerkleProof ∧
      o.trace.filter Event.isLedgerRead = [] ∧ o.trace.filter Event.isReplay = []) :=
  ⟨challenge_early_rejection fixture 0 slot10Keeper (challenge 10 999 [7])
      (.slotNotFound 999) (by decide) (Or.inl (by decide)),
   challenge_early_rejection fixture 0 slot10Keeper
      { challenge 10 10 [7] with MerkleProof := ⟨[6], []⟩ } .ErrInvalidMerkleProof
      (by decide) (Or.inr ⟨[7], by decide, by decide⟩)⟩

/-- C10 (account lookup): for a challenge with a non-empty disputed key that
reaches replay and whose replay succeeds with `out`, the handler returns, and
it fails with `ErrInvalidFraudStatePubkey` at the lookup step, that is before
any call of `AccountToValue`, exactly when no account of `out` has the
disputed key; an account that is present is never taken for the zero
account. -/
theorem challenge_account_lookup (c : Collaborators) (fuel : Nat) (k : Keeper)
    (msg : MsgSubmitFraudChallenge) (R : Bytes) (txsBz : List Bytes) (reads : List Nat)
    (out : List Account)
    (hkey : msg.FraudStatePubKey ≠ [])
    (hroot : GetStateRoot k msg.EndSlot = .ok R)
    (hvalid : c.Validate R msg.MerkleProof = none)
    (hloop : collectTxs k msg.EndSlot fuel msg.StartSlot [] [] = some (txsBz, reads))
    (hreplay : c.Replay txsBz msg.AccountStates msg.SysvarAccounts msg.Programs = .ok out) :
    ∃ o, SubmitFraudChallenge c fuel k msg = some o ∧
      ((o.result = .error .ErrInvalidFraudStatePubkey ∧
          o.trace.filter Event.isAccountToValue = []) ↔
        ∀ a ∈ out, a.Pubkey ≠ msg.FraudStatePubKey) ∧
      ((∃ a ∈ out, a.Pubkey = msg.FraudStatePubKey) →
        Account.zero ≠ findAccountState msg.FraudStatePubKey out) := by
  have hlen : ¬ msg.FraudStatePubKey.length = 0 := by
    simpa using hkey
  have hiff := findAccountState_zero_iff msg.FraudStatePubKey hkey out
  have hpresent : (∃ a ∈ out, a.Pubkey = msg.FraudStatePubKey) →
      Account.zero ≠ findAccountState msg.FraudStatePubKey out := by
    rintro ⟨a, ha, hpk⟩ hz
    exact (hiff.mp hz) a ha hpk
  have hnoread : ∀ l : List Nat,
      (l.map Event.getTransactionData).filter Event.isAccountToValue = [] := by
    intro l
    induction l with
    | nil => rfl
    | cons x xs ih => simp [List.filter, Event.isAccountToValue]
  simp only [SubmitFraudChallenge, if_neg hlen, hroot, hvalid, hloop, hreplay]
  by_cases hz : Account.zero = findAccountState msg.FraudStatePubKey out
  · rw [if_pos hz]
    refine ⟨_, rfl, ?_, hpresent⟩
    constructor
    · intro _
      exact hiff.mp hz
    · intro _
      refine ⟨rfl, ?_⟩
      simp [List.filter_append, hnoread, List.filter, Event.isAccountToValue]
  · rw [if_neg hz]
    have hsome : ¬ ∀ a ∈ out, a.Pubkey ≠ msg.FraudStatePubKey := fun h => hz (hiff.mpr h)
    cases c.AccountToValue (findAccountState msg.FraudStatePubKey out) with
    | error e =>
      refine ⟨_, rfl, ?_, hpresent⟩
      constructor
      · rintro ⟨_, ht⟩
        simp [List.filter_append, hnoread, List.filter, Event.isAccountToValue] at ht
      · intro h
        exact absurd h hsome
    | ok h =>
      dsimp only
      split
      · refine ⟨_, rfl, ?_, hpresent⟩
        constructor
        · rintro ⟨_, ht⟩
          simp [List.filter_append, hnoread, List.filter, Event.isAccountToValue] at ht
        · intro h
          exact absurd h hsome
      · refine ⟨_, rfl, ?_, hpresent⟩
        constructor
        · rintro ⟨_, ht⟩
          simp [List.filter_append, hnoread, List.filter, Event.isAccountToValue] at ht
        · intro h
          exact absurd h hsome

/-- An instance of `challenge_account_lookup`: on slot 10 the replay output
holds only the key `[9]`; a challenge that disputes the key `[5]` fails at the
lookup. -/
theorem challenge_account_lookup_witness :
    ∃ o, SubmitFraudChallenge fixture 2 slot10Keeper
        { challenge 10 10 [7] with FraudStatePubKey := [5] } = some o ∧
      ((o.result = .error .ErrInvalidFraudStatePubkey ∧
          o.trace.filter Event.isAccountToValue = []) ↔
        ∀ a ∈ [(⟨[9], [7]⟩ : Account)], a.Pubkey ≠ [5]) ∧
      ((∃ a ∈ [(⟨[9], [7]⟩ : Account)], a.Pubkey = [5]) →
        Account.zero ≠ findAccountState [5] [⟨[9], [7]⟩]) :=
  challenge_account_lookup fixture 2 slot10Keeper
    { challenge 10 10 [7] with FraudStatePubKey := [5] } [7] [[0]] [10] [⟨[9], [7]⟩]
    (by decide) (by decide) (by decide) (by decide) (by decide)

/-- C11 (read-only challenge resolution): whatever the collaborators, the
store and the message, and whether the challenge is accepted, rejected or
ends in an error, the store that the handler leaves behind is the store it
was given: batches, roots and senders of all slots are as before. -/
theorem challenge_read_only (c : Collaborators) (fuel : Nat) (k : Keeper)
    (msg : MsgSubmitFraudChallenge) (o : Outcome)
    (hrun : SubmitFraudChallenge c fuel k msg = some o) :
    o.keeper = k := by
  unfold SubmitFraudChallenge at hrun
  repeat' (try dsimp only at hrun); split at hrun
  all_goals first
    | (simp only [Option.some.injEq] at hrun; subst hrun; rfl)
    | (simp at hrun)

/-- Instances of `challenge_read_only` on slot 10: the accepted challenge, the
rejected challenge and the challenge for an unrecorded end slot all leave
the store as it was. -/
theorem challenge_read_only_witness :
    (∃ o, SubmitFraudChallenge fixture 2 slot10Keeper (challenge 10 10 [8]) = some o ∧
      o.result = .ok {} ∧ o.keeper = slot10Keeper) ∧
    (∃ o, SubmitFraudChallenge fixture 2 slot10Keeper (challenge 10 10 [7]) = some o ∧
      o.result = .error .ErrInvalidMerkleProof ∧ o.keeper = slot10Keeper) ∧
    (∃ o, SubmitFraudChallenge fixture 2 slot10Keeper (challenge 10 999 [7]) = some o ∧
      o.result = .error (.slotNotFound 999) ∧ o.keeper = slot10Keeper) :=
  ⟨⟨_, rfl, rfl, challenge_read_only fixture 2 slot10Keeper (challenge 10 10 [8]) _ rfl⟩,
   ⟨_, rfl, rfl, challenge_read_only fixture 2 slot10Keeper (challenge 10 10 [7]) _ rfl⟩,
   ⟨_, rfl, rfl, challenge_read_only fixture 2 slot10Keeper (challenge 10 999 [7]) _ rfl⟩⟩

/-- C15 (empty disputed key): a challenge whose `FraudStatePubKey` is empty
fails with `ErrInvalidFraudStatePubkey`, for every store, every set of
collaborators and every fuel, and the handler has made no call at all: no
read of the ledger, no validation of the proof, no replay. -/
theorem challenge_empty_key (c : Collaborators) (fuel : Nat) (k : Keeper)
    (msg : MsgSubmitFraudChallenge) (hkey : msg.FraudStatePubKey = []) :
    SubmitFraudChallenge c fuel k msg
      = some ⟨.error .ErrInvalidFraudStatePubkey, [], k⟩ := by
  have hlen : msg.FraudStatePubKey.length = 0 := by
    rw [hkey]; rfl
  simp only [SubmitFraudChallenge, if_pos hlen]

/-- Instances of `challenge_empty_key`: the empty key on the recorded slot 10
with a proof that does not validate, and the empty key on an unrecorded end
slot. -/
theorem challenge_empty_key_witness :
    fixture.Validate [7] emptyKeyBadProofChallenge.MerkleProof ≠ none ∧
    SubmitFraudChallenge fixture 0 slot10Keeper emptyKeyBadProofChallenge
      = some ⟨.error .ErrInvalidFraudStatePubkey, [], slot10Keeper⟩ ∧
    GetStateRoot slot10Keeper 999 = .error (.slotNotFound 999) ∧
    SubmitFraudChallenge fixture 0 slot10Keeper
        { emptyKeyBadProofChallenge with EndSlot := 999 }
      = some ⟨.error .ErrInvalidFraudStatePubkey, [], slot10Keeper⟩ :=
  ⟨by decide,
   challenge_empty_key fixture 0 slot10Keeper emptyKeyBadProofChallenge rfl,
   by decide,
   challenge_empty_key fixture 0 slot10Keeper
     { emptyKeyBadProofChallenge with EndSlot := 999 } rfl⟩

/-! ## Histories of record calls -/

theorem recordAll_append :
    ∀ (h1 h2 : List MsgRecordTransactionData) (k : Keeper),
      recordAll k (h1 ++ h2) = recordAll (recordAll k h1) h2
  | [], _, _ => rfl
  | msg :: rest, h2, k => by
    simp only [List.cons_append, recordAll]
    exact recordAll_append rest h2 _

/-- A record call stores a root only together with a sender. -/
theorem record_rootHasSender (k : Keeper) (msg : MsgRecordTransactionData)
    (hinv : rootHasSender k) : rootHasSender (RecordTransactionData k msg).1 := by
  unfold RecordTransactionData
  split
  · exact hinv
  · split
    · exact hinv
    · split
      · exact hinv
      · split
        · intro s hs
          exact hinv s hs
        · intro s hs
          by_cases e : s = msg.Slot
          · simp [SetSender, e]
          · simp only [SetSender, SetStateRoot, SetTransactionData, if_neg e] at hs ⊢
            exact hinv s hs

theorem recordAll_rootHasSender :
    ∀ (history : List MsgRecordTransactionData) (k : Keeper),
      rootHasSender k → rootHasSender (recordAll k history)
  | [], _, h => h
  | msg :: rest, k, h =>
    recordAll_rootHasSender rest _ (record_rootHasSender k msg h)

/-- Roots are write-once over histories: from a store in which every root
has a sender, such as the empty one, once a history has stored a root for a
slot, no continuation of the history changes the root or the batch of that
slot. -/
theorem recordAll_root_write_once (k : Keeper) (hinv : rootHasSender k)
    (h1 h2 : List MsgRecordTransactionData) (s : Nat) (r : Bytes)
    (hr : (recordAll k h1).stateRoot s = some r) :
    (recordAll k (h1 ++ h2)).stateRoot s = some r ∧
    (recordAll k (h1 ++ h2)).txData s = (recordAll k h1).txData s := by
  have hs := recordAll_rootHasSender h1 k hinv s (by rw [hr]; simp)
  obtain ⟨x, hx⟩ := Option.ne_none_iff_exists'.mp hs
  obtain ⟨_, i2, i3, _⟩ := recordAll_keeps_recorded h2 (recordAll k h1) s x hx
  rw [recordAll_append]
  exact ⟨i3.trans hr, i2⟩

/-- C12, evaluated on the code: from the empty ledger, the whitelisted sender
`[1]` first records slot 1 with the transaction `00` and the malformed root
`zz`, which fails but stores the batch, and then records slot 1 with the
transaction `01` and the root `07`. The second call succeeds and the batch
written for slot 1 by the first call is replaced. -/
theorem record_history_overwrites_batch :
    (∀ s, emptyKeeper.txData s = none ∧ emptyKeeper.stateRoot s = none ∧
      emptyKeeper.sender s = none) ∧
    (RecordTransactionData emptyKeeper badRootRecord).2 = .error (.hexInvalidByte 122) ∧
    (recordAll emptyKeeper [badRootRecord]).txData 1 = some [[0]] ∧
    (RecordTransactionData (recordAll emptyKeeper [badRootRecord]) goodRecord).2
      = .ok {} ∧
    (recordAll emptyKeeper [badRootRecord, goodRecord]).txData 1 = some [[1]] := by
  refine ⟨fun s => ⟨rfl, rfl, rfl⟩, ?_, ?_, ?_, ?_⟩ <;> decide

/-- C13, evaluated on the code at the end slot `2 ^ 64 - 1`: incrementing the
last slot gives 0; the loop started at the last slot reads it and goes on at
slot 0 with the condition still true; and started at slot 0 or inside the
handler it does not finish for any amount of fuel. -/
theorem slot_loop_wraps_at_last_slot :
    (maxSlot + 1) % slotModulus = 0 ∧
    (∀ fuel, collectTxs lastSlotKeeper maxSlot (fuel + 1) maxSlot [] []
      = collectTxs lastSlotKeeper maxSlot fuel 0 [[0]] [maxSlot]) ∧
    (∀ fuel, collectTxs lastSlotKeeper maxSlot fuel 0 [] [] = none) ∧
    (∀ fuel, SubmitFraudChallenge fixture fuel lastSlotKeeper (challenge 0 maxSlot [7])
      = none) := by
  refine ⟨by decide, fun fuel => rfl, ?_, ?_⟩
  · intro fuel
    exact collectTxs_last_slot lastSlotKeeper fuel 0 [] [] (Nat.zero_le _)
  · intro fuel
    have hloop : collectTxs lastSlotKeeper (challenge 0 maxSlot [7]).EndSlot fuel
        (challenge 0 maxSlot [7]).StartSlot [] [] = none :=
      collectTxs_last_slot lastSlotKeeper fuel 0 [] [] (Nat.zero_le _)
    have hlen : ¬ (challenge 0 maxSlot [7]).FraudStatePubKey.length = 0 := by decide
    have hroot : GetStateRoot lastSlotKeeper (challenge 0 maxSlot [7]).EndSlot
        = .ok [7] := by decide
    have hvalid : fixture.Validate [7] (challenge 0 maxSlot [7]).MerkleProof = none := by
      decide
    simp only [SubmitFraudChallenge, if_neg hlen, hroot, hvalid, hloop]

/-! ## First match -/

/-- The scan stops at the first account with the disputed key, whatever
follows it. -/
theorem findAccountState_first (key : GoString) (a : Account) (rest : List Account)
    (ha : a.Pubkey = key) :
    ∀ (pre : List Account), (∀ b ∈ pre, b.Pubkey ≠ key) →
      findAccountState key (pre ++ a :: rest) = a
  | [], _ => by simp [findAccountState, ha]
  | b :: pre, h => by
    have hb : ¬ b.Pubkey = key := h b (by simp)
    have ih := findAccountState_first key a rest ha pre (fun x hx => h x (by simp [hx]))
    simp only [List.cons_append, findAccountState, if_neg hb]
    exact ih

/-- Reads of the transaction ledger are no calls of `AccountToValue`. -/
theorem filter_isAccountToValue_reads (reads : List Nat) :
    (reads.map Event.getTransactionData).filter Event.isAccountToValue = [] := by
  induction reads with
  | nil => rfl
  | cons x xs ih => simp [List.filter, Event.isAccountToValue]

/-- C14 (first-match lookup): the replay output holds, after accounts without
the disputed key, the account `a` with the key and then any further accounts
`rest`, duplicates of the key included. The scan selects `a`; `a` is the one
account passed to `AccountToValue`; the result of the handler is decided by
the hash of `a` alone: the error of `AccountToValue a` if it fails, and
otherwise acceptance exactly when the claimed proof with its commitment
replaced by that hash fails against the root with `ErrInvalidMerkleProof`,
rejection with `ErrInvalidMerkleProof` if not; and with any other tail
`rest2` in place of `rest` the handler makes the same calls and returns the
same result. -/
theorem challenge_first_match (c c2 : Collaborators) (fuel : Nat) (k : Keeper)
    (msg : MsgSubmitFraudChallenge) (R : Bytes) (txsBz : List Bytes) (reads : List Nat)
    (pre rest rest2 : List Account) (a : Account)
    (hkey : msg.FraudStatePubKey ≠ [])
    (hroot : GetStateRoot k msg.EndSlot = .ok R)
    (hvalid : c.Validate R msg.MerkleProof = none)
    (hloop : collectTxs k msg.EndSlot fuel msg.StartSlot [] [] = some (txsBz, reads))
    (hreplay : c.Replay txsBz msg.AccountStates msg.SysvarAccounts msg.Programs
      = .ok (pre ++ a :: rest))
    (hreplay2 : c2.Replay txsBz msg.AccountStates msg.SysvarAccounts msg.Programs
      = .ok (pre ++ a :: rest2))
    (hsameV : c2.Validate = c.Validate) (hsameA : c2.AccountToValue = c.AccountToValue)
    (hpre : ∀ b ∈ pre, b.Pubkey ≠ msg.FraudStatePubKey)
    (ha : a.Pubkey = msg.FraudStatePubKey) :
    findAccountState msg.FraudStatePubKey (pre ++ a :: rest) = a ∧
    ∃ o, SubmitFraudChallenge c fuel k msg = some o ∧
      SubmitFraudChallenge c2 fuel k msg = some o ∧
      o.trace.filter Event.isAccountToValue = [.accountToValue a] ∧
      (∀ h, c.AccountToValue a = .ok h →
        Event.validate R { Commitment := h, Path := msg.MerkleProof.Path } ∈ o.trace) ∧
      o.result =
        (match c.AccountToValue a with
          | .error e => .error e
          | .ok h =>
            if c.Validate R { Commitment := h, Path := msg.MerkleProof.Path }
                = some .ErrInvalidMerkleProof
            then .ok {} else .error .ErrInvalidMerkleProof) := by
  have hlen : ¬ msg.FraudStatePubKey.length = 0 := by
    simpa using hkey
  have hf := findAccountState_first msg.FraudStatePubKey a rest ha pre hpre
  have hf2 := findAccountState_first msg.FraudStatePubKey a rest2 ha pre hpre
  have hnz : ¬ Account.zero = a := by
    intro e
    rw [← e] at ha
    exact hkey ha.symm
  have hvalid2 : c2.Validate R msg.MerkleProof = none := by
    rw [hsameV]; exact hvalid
  refine ⟨hf, ?_⟩
  simp only [SubmitFraudChallenge, if_neg hlen, hroot, hvalid, hvalid2, hloop, hreplay,
    hreplay2, hf, hf2, if_neg hnz, hsameV, hsameA]
  cases hh : c.AccountToValue a with
  | error e =>
    refine ⟨_, rfl, rfl, ?_, ?_, rfl⟩
    · simp [List.filter_append, filter_isAccountToValue_reads, List.filter,
        Event.isAccountToValue]
    · intro h hcontra
      simp at hcontra
  | ok h =>
    dsimp only
    by_cases hre : c.Validate R { Commitment := h, Path := msg.MerkleProof.Path }
        = some .ErrInvalidMerkleProof
    · rw [if_neg (not_not.mpr hre), if_pos hre]
      refine ⟨_, rfl, rfl, ?_, ?_, rfl⟩
      · simp [List.filter_append, filter_isAccountToValue_reads, List.filter,
          Event.isAccountToValue]
      · intro h2 he
        simp only [Except.ok.injEq] at he
        subst he
        simp
    · rw [if_pos hre, if_neg hre]
      refine ⟨_, rfl, rfl, ?_, ?_, rfl⟩
      · simp [List.filter_append, filter_isAccountToValue_reads, List.filter,
          Event.isAccountToValue]
      · intro h2 he
        simp only [Except.ok.injEq] at he
        subst he
        simp

/-- Instances of `challenge_first_match` on slot 10 recorded with root `[7]`,
where the replay output holds the key `[9]` twice. With the states `[7]`
then `[8]` the first is hashed and the challenge is rejected, although the
second alone would be accepted; with the states `[8]` then `[7]` the first
is hashed and the challenge is accepted, although the second alone would be
rejected. In both cases the outcome is the one of the output that holds the
first account alone. -/
theorem challenge_first_match_witness :
    (∃ o, SubmitFraudChallenge fixture 2 slot10Keeper duplicateKeyChallenge = some o ∧
      SubmitFraudChallenge fixtureFirst 2 slot10Keeper duplicateKeyChallenge = some o ∧
      o.trace.filter Event.isAccountToValue = [.accountToValue ⟨[9], [7]⟩] ∧
      o.result = .error .ErrInvalidMerkleProof) ∧
    (∃ o, SubmitFraudChallenge fixture 2 slot10Keeper duplicateKeyTamperedFirst = some o ∧
      SubmitFraudChallenge fixtureFirst 2 slot10Keeper duplicateKeyTamperedFirst
        = some o ∧
      o.trace.filter Event.isAccountToValue = [.accountToValue ⟨[9], [8]⟩] ∧
      o.result = .ok {}) := by
  constructor
  · obtain ⟨o, h1, h2, h3, _, h5⟩ :=
      (challenge_first_match fixture fixtureFirst 2 slot10Keeper duplicateKeyChallenge [7]
        [[0]] [10] [] [⟨[9], [8]⟩] [] ⟨[9], [7]⟩ (by decide) (by decide) (by decide)
        (by decide) (by decide) (by decide) rfl rfl (by decide) (by decide)).2
    exact ⟨o, h1, h2, h3, h5.trans (by decide)⟩
  · obtain ⟨o, h1, h2, h3, _, h5⟩ :=
      (challenge_first_match fixture fixtureFirst 2 slot10Keeper duplicateKeyTamperedFirst
        [7] [[0]] [10] [] [⟨[9], [7]⟩] [] ⟨[9], [8]⟩ (by decide) (by decide) (by decide)
        (by decide) (by decide) (by decide) rfl rfl (by decide) (by decide)).2
    exact ⟨o, h1, h2, h3, h5.trans (by decide)⟩

end Nitro
